import Mathlib

/-!
Shallow embedding of the Virtual-Webcam-Chatbot (meeting_copilot) audio
pipeline core, translated from the Python sources:

  * `src/meeting_copilot/audio/ring_buffer.py`  (`AudioRingBuffer`)
  * `src/meeting_copilot/audio/vad.py`          (`VADSegmenter`)
  * `src/meeting_copilot/wakeword/wakeword_text.py` (`TextWakeWord`)
  * `src/meeting_copilot/app.py`                (`MeetingCopilotApp._on_audio_data`)

Bytes are modelled as `Nat`, byte strings as `List Nat`, Python strings as
`List Char`.  A Python `collections.deque(maxlen := K)` is modelled as a
`List` kept to its last `K` elements (`dequeAppend`).  The external
webrtcvad classifier is an oracle `List Nat → Option Bool` (`none` models
the classifier raising on an invalid frame, which the code swallows by
skipping the frame).  The guards `num_voiced > 0.6 * K` and
`num_unvoiced > 0.8 * K` are float comparisons against an integer count in
the source; for every window size `K` reachable here the IEEE-double
products `0.6 * K` and `0.8 * K` round to exactly `3K/5` resp. `4K/5`
whenever those are integers and otherwise lie strictly between the
neighbouring integers, so the comparisons are embedded exactly as
`5 * n > 3 * K` and `5 * n > 4 * K`.
-/

/-- Keep the last `n` elements of a list (the contents of a bounded deque). -/
def lastN (n : Nat) (l : List α) : List α := l.drop (l.length - n)

/-- Append one element to a Python `deque(maxlen := n)`: the new element is
pushed at the right, evicting from the left past `n` entries. -/
def dequeAppend (n : Nat) (xs : List α) (x : α) : List α := lastN n (xs ++ [x])

theorem lastN_length (n : Nat) (l : List α) : (lastN n l).length = min n l.length := by
  unfold lastN
  rw [List.length_drop]
  omega

theorem lastN_of_le (h : l.length ≤ n) : lastN n l = l := by
  unfold lastN
  rw [show l.length - n = 0 by omega, List.drop_zero]

theorem lastN_lastN (m n : Nat) (l : List α) (h : m ≤ n) :
    lastN m (lastN n l) = lastN m l := by
  unfold lastN
  rw [List.drop_drop]
  congr 1
  simp only [List.length_drop]
  omega

theorem lastN_append (n : Nat) (a b : List α) (h : b.length ≤ n) :
    lastN n (a ++ b) = lastN (n - b.length) a ++ b := by
  unfold lastN
  rw [List.drop_append_eq_append_drop]
  simp only [List.length_append]
  congr 2
  · omega
  · have : a.length + b.length - n - a.length = 0 := by omega
    rw [this, List.drop_zero]

theorem lastN_append_right (n : Nat) (a b : List α) (h : n ≤ b.length) :
    lastN n (a ++ b) = lastN n b := by
  unfold lastN
  rw [List.drop_append_eq_append_drop,
    List.drop_eq_nil_of_le (by simp only [List.length_append]; omega)]
  simp only [List.nil_append, List.length_append]
  congr 1
  omega

theorem lastN_lastN_append (n : Nat) (a b : List α) :
    lastN n (lastN n a ++ b) = lastN n (a ++ b) := by
  by_cases hb : b.length ≤ n
  · rw [lastN_append n _ b hb, lastN_append n a b hb,
      lastN_lastN (n - b.length) n a (by omega)]
  · push_neg at hb
    rw [lastN_append_right n _ b (le_of_lt hb), lastN_append_right n a b (le_of_lt hb)]

/-! ## `AudioRingBuffer` (ring_buffer.py)

The Python deque holds one `bytes` object per appended *byte*
(`for byte in audio_data: self._buffer.append(bytes([byte]))`), so `len` of
the deque counts bytes and `b"".join` reassembles the byte string; here the
buffer is a `List Nat` of the individual bytes. -/

structure AudioRingBuffer where
  max_seconds : Nat
  sample_rate : Nat
  channels : Nat
  max_bytes : Nat
  buffer : List Nat
  total_bytes : Nat
deriving DecidableEq, Repr

/-- `AudioRingBuffer.__init__`.  The source performs **no validation**: the
constructor always succeeds, even with `max_seconds = 0`
(`deque(maxlen := 0)` is legal Python and silently drops every append). -/
def AudioRingBuffer.init (max_seconds sample_rate : Nat) (channels : Nat := 1) :
    AudioRingBuffer :=
  { max_seconds := max_seconds
    sample_rate := sample_rate
    channels := channels
    max_bytes := max_seconds * (sample_rate * channels * 2)
    buffer := []
    total_bytes := 0 }

/-- `AudioRingBuffer.append`: push the bytes one at a time into the bounded
deque. -/
def AudioRingBuffer.append (rb : AudioRingBuffer) (audio_data : List Nat) :
    AudioRingBuffer :=
  { rb with
    buffer := audio_data.foldl (fun buf byte => dequeAppend rb.max_bytes buf byte) rb.buffer
    total_bytes := rb.total_bytes + audio_data.length }

/-- `AudioRingBuffer.get_last_seconds`.  The `seconds` argument is a Python
float, modelled as a rational; `int(...)` truncation on a non-negative value
is `Rat.floor` + `Int.toNat`. -/
def AudioRingBuffer.get_last_seconds (rb : AudioRingBuffer) (seconds : Option ℚ) :
    List Nat :=
  if rb.buffer = [] then []
  else
    match seconds with
    | none => rb.buffer
    | some s =>
      let bytes_per_second : Nat := rb.sample_rate * rb.channels * 2
      let num_bytes : Nat := min ((s * bytes_per_second).floor.toNat) rb.buffer.length
      if rb.buffer.length ≤ num_bytes then rb.buffer
      else rb.buffer.drop (rb.buffer.length - num_bytes)

/-- `AudioRingBuffer.get_all`. -/
def AudioRingBuffer.get_all (rb : AudioRingBuffer) : List Nat :=
  rb.get_last_seconds none

/-- Feed a sequence of chunks through `append`. -/
def runAppends (rb : AudioRingBuffer) (chunks : List (List Nat)) : AudioRingBuffer :=
  chunks.foldl AudioRingBuffer.append rb

theorem foldl_dequeAppend (n : Nat) (data : List α) :
    ∀ buf : List α, buf.length ≤ n →
      data.foldl (fun b x => dequeAppend n b x) buf = lastN n (buf ++ data) := by
  induction data with
  | nil => intro buf h; simp [lastN_of_le h]
  | cons b rest ih =>
    intro buf h
    have hlen : (dequeAppend n buf b).length ≤ n := by
      have := lastN_length n (buf ++ [b]); simp [dequeAppend]; omega
    rw [List.foldl_cons, ih _ hlen]
    show lastN n (lastN n (buf ++ [b]) ++ rest) = _
    rw [lastN_lastN_append]
    simp

theorem append_buffer (rb : AudioRingBuffer) (data : List Nat)
    (h : rb.buffer.length ≤ rb.max_bytes) :
    (rb.append data).buffer = lastN rb.max_bytes (rb.buffer ++ data) := by
  simp [AudioRingBuffer.append, foldl_dequeAppend rb.max_bytes data rb.buffer h]

theorem runAppends_buffer (chunks : List (List Nat)) :
    ∀ rb : AudioRingBuffer, rb.buffer.length ≤ rb.max_bytes →
      (runAppends rb chunks).buffer = lastN rb.max_bytes (rb.buffer ++ chunks.join) ∧
      (runAppends rb chunks).max_bytes = rb.max_bytes := by
  induction chunks with
  | nil =>
    intro rb h
    simp [runAppends, lastN_of_le h]
  | cons c rest ih =>
    intro rb h
    have hbuf : (rb.append c).buffer = lastN rb.max_bytes (rb.buffer ++ c) :=
      append_buffer rb c h
    have hlen : (rb.append c).buffer.length ≤ (rb.append c).max_bytes := by
      rw [hbuf]
      have := lastN_length rb.max_bytes (rb.buffer ++ c)
      simp [AudioRingBuffer.append]
      omega
    have hmax : (rb.append c).max_bytes = rb.max_bytes := rfl
    obtain ⟨h1, h2⟩ := ih (rb.append c) hlen
    refine ⟨?_, by
      rw [show runAppends rb (c :: rest) = runAppends (rb.append c) rest from rfl, h2, hmax]⟩
    rw [(show runAppends rb (c :: rest) = runAppends (rb.append c) rest from rfl), h1,
      hmax, hbuf, lastN_lastN_append]
    simp [List.append_assoc]

theorem get_last_seconds_none (rb : AudioRingBuffer) :
    rb.get_last_seconds none = rb.buffer := by
  unfold AudioRingBuffer.get_last_seconds
  by_cases h : rb.buffer = [] <;> simp [h]

/-- Claim C3: for every sequence of byte-chunks appended to the ring buffer,
the stored contents never exceed `max_bytes` after any append (the chunk
list is universally quantified, so every prefix of a run is an instance),
and `get_last_seconds(None)` returns exactly the most recently appended
`max_bytes` bytes of the concatenated stream — the whole stream when fewer
were appended — in oldest-first order. -/
theorem ringBuffer_C3 (max_seconds sample_rate channels : Nat)
    (chunks : List (List Nat)) :
    (runAppends (AudioRingBuffer.init max_seconds sample_rate channels) chunks).buffer.length
        ≤ (AudioRingBuffer.init max_seconds sample_rate channels).max_bytes ∧
    (runAppends (AudioRingBuffer.init max_seconds sample_rate channels) chunks).get_last_seconds none
      = chunks.join.drop
          (chunks.join.length - (AudioRingBuffer.init max_seconds sample_rate channels).max_bytes) := by
  obtain ⟨h1, _⟩ := runAppends_buffer chunks (AudioRingBuffer.init max_seconds sample_rate channels)
    (by simp [AudioRingBuffer.init])
  constructor
  · rw [h1]
    have := lastN_length (AudioRingBuffer.init max_seconds sample_rate channels).max_bytes
      ((AudioRingBuffer.init max_seconds sample_rate channels).buffer ++ chunks.join)
    omega
  · rw [get_last_seconds_none, h1]
    simp [AudioRingBuffer.init, lastN]

/-- Claim C4 (divergence witness): constructing the ring buffer with
`max_seconds = 0` is **not** rejected — the constructor succeeds, produces
`max_bytes = 0`, and every subsequent append is silently discarded.  The
spec requires this degenerate configuration to fail at construction. -/
theorem ringBuffer_C4_zero_capacity_accepted :
    (AudioRingBuffer.init 0 16000 1).max_bytes = 0 ∧
    ((AudioRingBuffer.init 0 16000 1).append [1, 2, 3]).buffer = [] ∧
    ((AudioRingBuffer.init 0 16000 1).append [1, 2, 3]).get_last_seconds none = [] := by
  refine ⟨rfl, ?_, ?_⟩ <;> rfl

/-! ## `VADSegmenter` (vad.py)

The state carries the configuration fields of the Python object plus the
mutable segmentation state.  `ring` is the decision window
(`deque(maxlen := padding_frames)` of `(frame, is_speech)` pairs),
`current_utterance` the list of byte strings accumulated since trigger. -/

structure VADSegmenter where
  sample_rate : Nat
  frame_ms : Nat
  padding_ms : Nat
  frame_bytes : Nat
  padding_frames : Nat
  ring : List (List Nat × Bool)
  triggered : Bool
  current_utterance : List (List Nat)
deriving DecidableEq, Repr

/-- `VADSegmenter.__init__`, with its three validation checks.
`frame_bytes = int(sample_rate * (frame_ms / 1000.0) * 2)` is exact for
every accepted `(sample_rate, frame_ms)` pair, hence the Nat division;
`padding_frames = int(padding_ms / frame_ms)` is Nat division. -/
def VADSegmenter.init (sample_rate : Nat) (aggressiveness : Nat := 2)
    (frame_ms : Nat := 30) (padding_ms : Nat := 300) :
    Except String VADSegmenter :=
  if ¬ (sample_rate = 8000 ∨ sample_rate = 16000 ∨ sample_rate = 32000 ∨ sample_rate = 48000) then
    .error "Sample rate must be 8000, 16000, 32000, or 48000"
  else if ¬ (frame_ms = 10 ∨ frame_ms = 20 ∨ frame_ms = 30) then
    .error "Frame duration must be 10, 20, or 30 ms"
  else if ¬ (aggressiveness ≤ 3) then
    .error "Aggressiveness must be 0-3"
  else
    .ok
      { sample_rate := sample_rate
        frame_ms := frame_ms
        padding_ms := padding_ms
        frame_bytes := sample_rate * frame_ms * 2 / 1000
        padding_frames := padding_ms / frame_ms
        ring := []
        triggered := false
        current_utterance := [] }

/-- `sum(1 for _, speech in ring if speech)` -/
def numVoiced (r : List (List Nat × Bool)) : Nat :=
  (r.filter (fun p => p.2)).length

/-- `sum(1 for _, speech in ring if not speech)` -/
def numUnvoiced (r : List (List Nat × Bool)) : Nat :=
  (r.filter (fun p => !p.2)).length

/-- `VADSegmenter._process_frame` after the classifier has returned
`is_speech`.  Returns the new state and the (at most one) utterance the
iterator yields.  The float guards `num_voiced > 0.6 * maxlen` and
`num_unvoiced > 0.8 * maxlen` are embedded exactly as `5*n > 3*K` and
`5*n > 4*K` (see the header comment). -/
def processFrame (s : VADSegmenter) (frame : List Nat) (is_speech : Bool) :
    VADSegmenter × Option (List Nat) :=
  if s.triggered = false then
    let ring := dequeAppend s.padding_frames s.ring (frame, is_speech)
    if 5 * numVoiced ring > 3 * s.padding_frames then
      ({ s with triggered := true
                ring := []
                current_utterance := [(ring.map (fun p => p.1)).join] }, none)
    else
      ({ s with ring := ring }, none)
  else
    let current := s.current_utterance ++ [frame]
    let ring := dequeAppend s.padding_frames s.ring (frame, is_speech)
    if 5 * numUnvoiced ring > 4 * s.padding_frames then
      ({ s with current_utterance := []
                ring := []
                triggered := false }, some current.join)
    else
      ({ s with current_utterance := current, ring := ring }, none)

/-- Feed a list of already-classified `(frame, is_speech)` pairs through
`_process_frame`, collecting the yielded utterances in order. -/
def runFrames : VADSegmenter → List (List Nat × Bool) → VADSegmenter × List (List Nat)
  | s, [] => (s, [])
  | s, p :: rest =>
    let step := processFrame s p.1 p.2
    let tail := runFrames step.1 rest
    (tail.1, step.2.toList ++ tail.2)

/-- One frame of `_process_frame` including the `vad.is_speech` call: the
classifier is an oracle; `none` models the exception path (frame skipped,
no state change). -/
def processFrameO (classify : List Nat → Option Bool) (s : VADSegmenter)
    (frame : List Nat) : VADSegmenter × Option (List Nat) :=
  match classify frame with
  | none => (s, none)
  | some b => processFrame s frame b

def runFramesO (classify : List Nat → Option Bool) :
    VADSegmenter → List (List Nat) → VADSegmenter × List (List Nat)
  | s, [] => (s, [])
  | s, f :: rest =>
    let step := processFrameO classify s f
    let tail := runFramesO classify step.1 rest
    (tail.1, step.2.toList ++ tail.2)

/-- Split a PCM chunk into consecutive exact `frame_bytes`-sized frames,
discarding a trailing remainder (`for i in range(0, len - fb + 1, fb)`).
`frame_bytes = 0` cannot arise from a validated constructor. -/
def splitFrames (fb : Nat) (pcm : List Nat) : List (List Nat) :=
  if h : 0 < fb ∧ fb ≤ pcm.length then
    pcm.take fb :: splitFrames fb (pcm.drop fb)
  else
    []
termination_by pcm.length
decreasing_by simp only [List.length_drop]; omega

/-- `VADSegmenter.process_audio` on one chunk. -/
def processAudio (classify : List Nat → Option Bool) (s : VADSegmenter)
    (pcm_data : List Nat) : VADSegmenter × List (List Nat) :=
  runFramesO classify s (splitFrames s.frame_bytes pcm_data)

/-- Feed a sequence of chunks through `process_audio`. -/
def runChunks (classify : List Nat → Option Bool) :
    VADSegmenter → List (List Nat) → VADSegmenter × List (List Nat)
  | s, [] => (s, [])
  | s, c :: rest =>
    let step := processAudio classify s c
    let tail := runChunks classify step.1 rest
    (tail.1, step.2 ++ tail.2)

/-- `VADSegmenter.flush`.  `if self._current_utterance:` is Python list
truthiness, i.e. non-emptiness. -/
def VADSegmenter.flush (s : VADSegmenter) : VADSegmenter × Option (List Nat) :=
  if s.current_utterance ≠ [] then
    ({ s with current_utterance := [], triggered := false, ring := [] },
      some s.current_utterance.join)
  else
    (s, none)

/-- `VADSegmenter.reset`. -/
def VADSegmenter.reset (s : VADSegmenter) : VADSegmenter :=
  { s with current_utterance := [], triggered := false, ring := [] }

/-- Invariant maintained by `_process_frame` on every state reachable from
a freshly constructed segmenter: the window is bounded by `K`; in `IDLE`
the utterance buffer is empty and the voiced count never already exceeds
the trigger threshold; in `SPEAKING` the utterance buffer is non-empty and
the unvoiced count never already exceeds the stop threshold. -/
def VADInv (s : VADSegmenter) : Prop :=
  s.ring.length ≤ s.padding_frames ∧
  (s.triggered = false → s.current_utterance = [] ∧
    5 * numVoiced s.ring ≤ 3 * s.padding_frames) ∧
  (s.triggered = true → s.current_utterance ≠ [] ∧
    5 * numUnvoiced s.ring ≤ 4 * s.padding_frames)

instance (s : VADSegmenter) : Decidable (VADInv s) := by
  unfold VADInv; infer_instance

theorem numVoiced_append (a b : List (List Nat × Bool)) :
    numVoiced (a ++ b) = numVoiced a + numVoiced b := by
  simp [numVoiced, List.filter_append]

theorem numVoiced_drop_le (n : Nat) (l : List (List Nat × Bool)) :
    numVoiced (l.drop n) ≤ numVoiced l := by
  conv_rhs => rw [← List.take_append_drop n l]
  rw [numVoiced_append]
  omega

theorem numVoiced_dequeAppend_silent (K : Nat) (r : List (List Nat × Bool))
    (f : List Nat) : numVoiced (dequeAppend K r (f, false)) ≤ numVoiced r := by
  have h1 : numVoiced (dequeAppend K r (f, false)) ≤ numVoiced (r ++ [(f, false)]) :=
    numVoiced_drop_le _ _
  rw [numVoiced_append] at h1
  simpa [numVoiced] using h1

theorem dequeAppend_length_le (n : Nat) (xs : List α) (x : α) :
    (dequeAppend n xs x).length ≤ n := by
  have := lastN_length n (xs ++ [x])
  simp only [dequeAppend]
  omega

/-- `IDLE` absorbs silence: from a state whose window does not already
exceed the trigger threshold, classified-silent frames never trigger, never
emit, and leave the utterance buffer untouched. -/
theorem silentRun_idle :
    ∀ (fs : List (List Nat × Bool)) (s : VADSegmenter),
      s.triggered = false →
      5 * numVoiced s.ring ≤ 3 * s.padding_frames →
      (∀ p ∈ fs, p.2 = false) →
      (runFrames s fs).1.triggered = false ∧
      (runFrames s fs).1.current_utterance = s.current_utterance ∧
      (runFrames s fs).2 = [] := by
  intro fs
  induction fs with
  | nil => intro s h1 _ _; exact ⟨h1, rfl, rfl⟩
  | cons p rest ih =>
    intro s h1 h2 h3
    obtain ⟨fd, fsp⟩ := p
    have hp : fsp = false := h3 (fd, fsp) (List.mem_cons_self _ _)
    subst hp
    have hguard : ¬ 5 * numVoiced (dequeAppend s.padding_frames s.ring (fd, false)) >
        3 * s.padding_frames := by
      have := numVoiced_dequeAppend_silent s.padding_frames s.ring fd
      omega
    have hstep : processFrame s fd false =
        ({ s with ring := dequeAppend s.padding_frames s.ring (fd, false) }, none) := by
      rw [processFrame, if_pos h1, if_neg hguard]
    have hnv : 5 * numVoiced (dequeAppend s.padding_frames s.ring (fd, false)) ≤
        3 * s.padding_frames := by
      have := numVoiced_dequeAppend_silent s.padding_frames s.ring fd
      omega
    obtain ⟨a, b, c⟩ := ih { s with ring := dequeAppend s.padding_frames s.ring (fd, false) }
      h1 hnv (fun q hq => h3 q (List.mem_cons_of_mem _ hq))
    simp only [runFrames, hstep, Option.toList, List.nil_append]
    exact ⟨a, by simpa using b, c⟩

/-- Claim C1: segmenter hysteresis in `IDLE`.  (a) Any number of frames all
classified as silence, fed from an `IDLE` state satisfying the reachable
invariant, never transitions to `SPEAKING` and emits nothing.  (b) Whenever
appending the incoming frame makes strictly more than `0.6 * K` of the
decision window voiced, the step triggers `SPEAKING`, the utterance buffer
is seeded with the concatenation of all frames in the decision window, and
the decision window is cleared (and nothing is emitted yet). -/
theorem vad_C1 (s : VADSegmenter) (hinv : VADInv s) (hidle : s.triggered = false) :
    (∀ fs : List (List Nat × Bool), (∀ p ∈ fs, p.2 = false) →
      (runFrames s fs).1.triggered = false ∧ (runFrames s fs).2 = []) ∧
    (∀ (f : List Nat) (sp : Bool),
      5 * numVoiced (dequeAppend s.padding_frames s.ring (f, sp)) > 3 * s.padding_frames →
      processFrame s f sp =
        ({ s with triggered := true
                  ring := []
                  current_utterance :=
                    [((dequeAppend s.padding_frames s.ring (f, sp)).map (fun p => p.1)).join] },
          none)) := by
  constructor
  · intro fs hsil
    obtain ⟨a, _, c⟩ := silentRun_idle fs s hidle (hinv.2.1 hidle).2 hsil
    exact ⟨a, c⟩
  · intro f sp hguard
    rw [processFrame, if_pos hidle, if_pos hguard]

theorem vad_C1_witness :
    ((runFrames ⟨16000, 30, 300, 960, 5, [], false, []⟩
        [([1, 2], false), ([3, 4], false), ([5, 6], false), ([7, 8], false), ([9, 10], false)]).1.triggered
        = false ∧
      (runFrames ⟨16000, 30, 300, 960, 5, [], false, []⟩
        [([1, 2], false), ([3, 4], false), ([5, 6], false), ([7, 8], false), ([9, 10], false)]).2 = []) ∧
    processFrame ⟨16000, 30, 300, 960, 1, [], false, []⟩ [9] true =
      ({ (⟨16000, 30, 300, 960, 1, [], false, []⟩ : VADSegmenter) with
          triggered := true
          ring := []
          current_utterance :=
            [((dequeAppend 1 [] ([9], true)).map (fun p => p.1)).join] }, none) := by
  exact ⟨(vad_C1 ⟨16000, 30, 300, 960, 5, [], false, []⟩ (by decide) rfl).1
      [([1, 2], false), ([3, 4], false), ([5, 6], false), ([7, 8], false), ([9, 10], false)]
      (by decide),
    (vad_C1 ⟨16000, 30, 300, 960, 1, [], false, []⟩ (by decide) rfl).2 [9] true (by decide)⟩

/-- Claim C6: `flush` on a segmenter with no in-progress utterance returns
`none` and changes nothing; `flush` mid-utterance returns the concatenation
of the accumulated frames and resets to `IDLE` with empty buffers, so an
immediately subsequent `flush` returns `none`. -/
theorem vad_C6 (s : VADSegmenter) :
    (s.current_utterance = [] → s.flush = (s, none)) ∧
    (s.current_utterance ≠ [] →
      s.flush = ({ s with current_utterance := [], triggered := false, ring := [] },
        some s.current_utterance.join) ∧
      ({ s with current_utterance := [], triggered := false, ring := [] } :
        VADSegmenter).flush =
        ({ s with current_utterance := [], triggered := false, ring := [] }, none)) := by
  constructor
  · intro h
    rw [VADSegmenter.flush, if_neg (by simp [h])]
  · intro h
    refine ⟨by rw [VADSegmenter.flush, if_pos h], ?_⟩
    rw [VADSegmenter.flush, if_neg (by simp)]

theorem vad_C6_witness :
    ((⟨16000, 30, 300, 960, 3, [], false, []⟩ : VADSegmenter).flush =
      (⟨16000, 30, 300, 960, 3, [], false, []⟩, none)) ∧
    ((⟨16000, 30, 300, 960, 3, [], true, [[1, 2], [3]]⟩ : VADSegmenter).flush =
        (⟨16000, 30, 300, 960, 3, [], false, []⟩, some [1, 2, 3]) ∧
      (⟨16000, 30, 300, 960, 3, [], false, []⟩ : VADSegmenter).flush =
        (⟨16000, 30, 300, 960, 3, [], false, []⟩, none)) := by
  exact ⟨(vad_C6 ⟨16000, 30, 300, 960, 3, [], false, []⟩).1 rfl,
    (vad_C6 ⟨16000, 30, 300, 960, 3, [], true, [[1, 2], [3]]⟩).2 (by decide)⟩

theorem lastN_zero (l : List α) : lastN 0 l = [] := by
  unfold lastN
  simp

theorem k0_processFrame (s : VADSegmenter) (h0 : s.padding_frames = 0)
    (hidle : s.triggered = false) (f : List Nat) (b : Bool) :
    processFrame s f b = ({ s with ring := [] }, none) := by
  rw [processFrame, if_pos hidle]
  have hring : dequeAppend s.padding_frames s.ring (f, b) = [] := by
    rw [h0]; exact lastN_zero _
  rw [hring]
  have : ¬ 5 * numVoiced [] > 3 * s.padding_frames := by simp [numVoiced]
  rw [if_neg this]

theorem k0_runFramesO (classify : List Nat → Option Bool) :
    ∀ (frames : List (List Nat)) (s : VADSegmenter),
      s.padding_frames = 0 → s.triggered = false →
      (runFramesO classify s frames).1.padding_frames = 0 ∧
      (runFramesO classify s frames).1.triggered = false ∧
      (runFramesO classify s frames).2 = [] := by
  intro frames
  induction frames with
  | nil => intro s h0 h1; exact ⟨h0, h1, rfl⟩
  | cons f rest ih =>
    intro s h0 h1
    simp only [runFramesO]
    rcases hc : classify f with _ | b
    · have hstep : processFrameO classify s f = (s, none) := by
        simp only [processFrameO, hc]
      simp only [hstep, Option.toList, List.nil_append]
      exact ih s h0 h1
    · have hstep : processFrameO classify s f = ({ s with ring := [] }, none) := by
        simp only [processFrameO, hc]
        exact k0_processFrame s h0 h1 f b
      simp only [hstep, Option.toList, List.nil_append]
      exact ih { s with ring := [] } h0 h1

theorem k0_runChunks (classify : List Nat → Option Bool) :
    ∀ (chunks : List (List Nat)) (s : VADSegmenter),
      s.padding_frames = 0 → s.triggered = false →
      (runChunks classify s chunks).1.triggered = false ∧
      (runChunks classify s chunks).2 = [] := by
  intro chunks
  induction chunks with
  | nil => intro s _ h1; exact ⟨h1, rfl⟩
  | cons c rest ih =>
    intro s h0 h1
    simp only [runChunks, processAudio]
    obtain ⟨a, b, cc⟩ :=
      k0_runFramesO classify (splitFrames s.frame_bytes c) s h0 h1
    obtain ⟨d, e⟩ := ih (runFramesO classify s (splitFrames s.frame_bytes c)).1 a b
    exact ⟨d, by simp [cc, e]⟩

/-- Claim C10: a segmenter constructed with `padding_ms < frame_ms` has a
decision window of size `K = padding_ms / frame_ms = 0`; from it, for every
classifier oracle and every sequence of input chunks, `process_audio` never
transitions to `SPEAKING` and never emits an utterance (the chunk list is
universally quantified, so this holds at every intermediate point too). -/
theorem vad_C10 (sample_rate aggressiveness frame_ms padding_ms : Nat)
    (s0 : VADSegmenter)
    (hmk : VADSegmenter.init sample_rate aggressiveness frame_ms padding_ms = .ok s0)
    (hlt : padding_ms < frame_ms)
    (classify : List Nat → Option Bool) (chunks : List (List Nat)) :
    (runChunks classify s0 chunks).1.triggered = false ∧
    (runChunks classify s0 chunks).2 = [] := by
  rw [VADSegmenter.init] at hmk
  split_ifs at hmk
  injection hmk with hmk
  have h0 : s0.padding_frames = 0 := by
    rw [← hmk]
    exact Nat.div_eq_of_lt hlt
  have h1 : s0.triggered = false := by rw [← hmk]
  exact k0_runChunks classify chunks s0 h0 h1

theorem vad_C10_witness :
    (runChunks (fun _ => some true) ⟨16000, 30, 20, 960, 0, [], false, []⟩
        [List.replicate 1920 7, List.replicate 960 3]).1.triggered = false ∧
    (runChunks (fun _ => some true) ⟨16000, 30, 20, 960, 0, [], false, []⟩
        [List.replicate 1920 7, List.replicate 960 3]).2 = [] := by
  exact vad_C10 16000 2 30 20 ⟨16000, 30, 20, 960, 0, [], false, []⟩ rfl
    (by decide) (fun _ => some true) [List.replicate 1920 7, List.replicate 960 3]

/-- Number of trailing window entries classified as silence. -/
def trailingSilent (r : List (List Nat × Bool)) : Nat :=
  (r.reverse.takeWhile (fun p => !p.2)).length

theorem takeWhile_take_length (p : α → Bool) :
    ∀ (xs : List α) (m : Nat),
      ((xs.take m).takeWhile p).length = min (xs.takeWhile p).length m := by
  intro xs
  induction xs with
  | nil => intro m; simp
  | cons a xs ih =>
    intro m
    cases m with
    | zero => simp
    | succ m =>
      rw [List.take_succ_cons, List.takeWhile_cons, List.takeWhile_cons]
      cases hpa : p a
      · rw [if_neg (by simp), if_neg (by simp)]
        simp
      · rw [if_pos rfl, if_pos rfl]
        simp only [List.length_cons, ih m]
        omega

theorem takeWhile_length_le_filter (p : α → Bool) :
    ∀ l : List α, (l.takeWhile p).length ≤ (l.filter p).length := by
  intro l
  induction l with
  | nil => simp
  | cons a l ih =>
    rw [List.takeWhile_cons, List.filter_cons]
    cases hpa : p a
    · rw [if_neg (by simp), if_neg (by simp)]
      simp
    · rw [if_pos rfl, if_pos rfl]
      simp only [List.length_cons]
      omega

theorem trailingSilent_le_length (r : List (List Nat × Bool)) :
    trailingSilent r ≤ r.length := by
  calc trailingSilent r ≤ r.reverse.length := (List.takeWhile_prefix _).length_le
  _ = r.length := List.length_reverse r

theorem trailingSilent_le_numUnvoiced (r : List (List Nat × Bool)) :
    trailingSilent r ≤ numUnvoiced r := by
  have h1 := takeWhile_length_le_filter (fun p => !p.2) r.reverse
  rw [List.filter_reverse, List.length_reverse] at h1
  exact h1

theorem trailingSilent_drop (n : Nat) (l : List (List Nat × Bool)) :
    trailingSilent (l.drop n) = min (trailingSilent l) (l.length - n) := by
  unfold trailingSilent
  rw [List.reverse_drop, takeWhile_take_length]

theorem trailingSilent_append_silent (r : List (List Nat × Bool)) (f : List Nat) :
    trailingSilent (r ++ [(f, false)]) = trailingSilent r + 1 := by
  unfold trailingSilent
  rw [List.reverse_append]
  simp [List.takeWhile_cons]

theorem trailingSilent_dequeAppend (K : Nat) (r : List (List Nat × Bool)) (f : List Nat) :
    trailingSilent (dequeAppend K r (f, false)) = min (trailingSilent r + 1) K := by
  unfold dequeAppend lastN
  rw [trailingSilent_drop, trailingSilent_append_silent]
  have h1 : trailingSilent r ≤ r.length := trailingSilent_le_length r
  simp only [List.length_append, List.length_cons, List.length_nil]
  omega

theorem processFrame_speaking (s : VADSegmenter) (f : List Nat) (b : Bool)
    (htr : s.triggered = true) :
    processFrame s f b =
      (if 5 * numUnvoiced (dequeAppend s.padding_frames s.ring (f, b)) > 4 * s.padding_frames
       then ({ s with current_utterance := [], ring := [], triggered := false },
         some (s.current_utterance ++ [f]).join)
       else ({ s with
                current_utterance := s.current_utterance ++ [f]
                ring := dequeAppend s.padding_frames s.ring (f, b) }, none)) := by
  rw [processFrame, htr, if_neg (show ¬(true = false) by simp)]

/-- From any `SPEAKING` state whose window has not already crossed the stop
threshold, a run of classified-silent frames long enough that the trailing
silence must cross `0.8 * K` reaches the emission step: at some prefix
length `j` the utterance (everything accumulated plus the silent frames fed
so far) is emitted and the state resets to `IDLE` with empty buffers. -/
theorem speaking_silent_emits :
    ∀ (fs : List (List Nat × Bool)) (s : VADSegmenter),
      s.triggered = true →
      (∀ p ∈ fs, p.2 = false) →
      5 * numUnvoiced s.ring ≤ 4 * s.padding_frames →
      5 * min (trailingSilent s.ring + fs.length) s.padding_frames > 4 * s.padding_frames →
      ∃ j, 0 < j ∧ j ≤ fs.length ∧
        runFrames s (fs.take j) =
          ({ s with triggered := false, ring := [], current_utterance := [] },
            [(s.current_utterance ++ (fs.take j).map (fun p => p.1)).join]) := by
  intro fs
  induction fs with
  | nil =>
    intro s _ _ hsafe hbound
    exfalso
    simp only [List.length_nil, Nat.add_zero] at hbound
    have h1 : trailingSilent s.ring ≤ numUnvoiced s.ring :=
      trailingSilent_le_numUnvoiced s.ring
    omega
  | cons p rest ih =>
    intro s htr hsil hsafe hbound
    obtain ⟨fd, fsp⟩ := p
    have hp : fsp = false := hsil (fd, fsp) (List.mem_cons_self _ _)
    subst hp
    have hstep := processFrame_speaking s fd false htr
    by_cases hg : 5 * numUnvoiced (dequeAppend s.padding_frames s.ring (fd, false)) >
        4 * s.padding_frames
    · rw [if_pos hg] at hstep
      refine ⟨1, Nat.one_pos, by simp, ?_⟩
      rw [List.take_succ_cons, List.take_zero]
      simp only [runFrames, hstep, Option.toList, List.map_cons, List.map_nil,
        List.append_nil]
    · rw [if_neg hg] at hstep
      push_neg at hg
      have hts : trailingSilent (dequeAppend s.padding_frames s.ring (fd, false)) =
          min (trailingSilent s.ring + 1) s.padding_frames :=
        trailingSilent_dequeAppend s.padding_frames s.ring fd
      have hts2 : trailingSilent (dequeAppend s.padding_frames s.ring (fd, false)) ≤
          numUnvoiced (dequeAppend s.padding_frames s.ring (fd, false)) :=
        trailingSilent_le_numUnvoiced _
      obtain ⟨j, hj0, hj1, hrun⟩ :=
        ih { s with
              current_utterance := s.current_utterance ++ [fd]
              ring := dequeAppend s.padding_frames s.ring (fd, false) }
          htr (fun q hq => hsil q (List.mem_cons_of_mem _ hq)) hg
          (by
            show 5 * min (trailingSilent (dequeAppend s.padding_frames s.ring (fd, false))
              + rest.length) s.padding_frames > 4 * s.padding_frames
            rw [hts]
            simp only [List.length_cons] at hbound
            omega)
      refine ⟨j + 1, Nat.succ_pos j, by simpa using Nat.succ_le_succ hj1, ?_⟩
      rw [List.take_succ_cons]
      simp only [runFrames, hstep, Option.toList, List.nil_append]
      rw [hrun]
      simp [List.append_assoc]

theorem runFrames_append (xs ys : List (List Nat × Bool)) :
    ∀ s : VADSegmenter,
      runFrames s (xs ++ ys) =
        ((runFrames (runFrames s xs).1 ys).1,
          (runFrames s xs).2 ++ (runFrames (runFrames s xs).1 ys).2) := by
  induction xs with
  | nil => intro s; simp [runFrames]
  | cons x xs ih =>
    intro s
    have h := ih (processFrame s x.1 x.2).1
    simp only [List.cons_append, runFrames, List.append_eq]
    rw [h]
    simp [List.append_assoc]

/-- Claim C2: segmenter termination.  From any `SPEAKING` state satisfying
the reachable invariant (with a non-degenerate window, `K ≥ 1`), feeding at
least `ceil(0.8 K) + 1` consecutive frames classified as silent yields
exactly one emitted utterance: at some prefix length `j` the utterance is
emitted and the segmenter resets to `IDLE` with empty utterance buffer and
empty decision window; the utterance's byte length is the sum of the
lengths of all frames appended to the utterance buffer since the trigger
(the buffered content plus the silent frames fed up to the emission); over
the whole silent run nothing further is emitted and the segmenter ends in
`IDLE` with empty utterance buffer. -/
theorem vad_C2 (s : VADSegmenter) (hinv : VADInv s) (htr : s.triggered = true)
    (hK : 0 < s.padding_frames)
    (fs : List (List Nat × Bool)) (hsil : ∀ p ∈ fs, p.2 = false)
    (hlen : (4 * s.padding_frames + 4) / 5 + 1 ≤ fs.length) :
    ∃ j u, 0 < j ∧ j ≤ fs.length ∧
      runFrames s (fs.take j) =
        ({ s with triggered := false, ring := [], current_utterance := [] }, [u]) ∧
      u.length = (s.current_utterance.map List.length).sum +
        ((fs.take j).map (fun p => p.1.length)).sum ∧
      (runFrames s fs).2 = [u] ∧
      (runFrames s fs).1.triggered = false ∧
      (runFrames s fs).1.current_utterance = [] := by
  have hsafe : 5 * numUnvoiced s.ring ≤ 4 * s.padding_frames := (hinv.2.2 htr).2
  have hbound : 5 * min (trailingSilent s.ring + fs.length) s.padding_frames >
      4 * s.padding_frames := by
    omega
  obtain ⟨j, hj0, hj1, hrun⟩ := speaking_silent_emits fs s htr hsil hsafe hbound
  refine ⟨j, (s.current_utterance ++ (fs.take j).map (fun p => p.1)).join,
    hj0, hj1, hrun, ?_, ?_⟩
  · rw [List.length_join, List.map_append, List.sum_append, List.map_map]
    simp [Function.comp_def]
  · have hfull := runFrames_append (fs.take j) (fs.drop j) s
    rw [List.take_append_drop] at hfull
    rw [hrun] at hfull
    obtain ⟨ta, tb, tc⟩ := silentRun_idle (fs.drop j)
      { s with triggered := false, ring := [], current_utterance := [] }
      rfl (by simp [numVoiced]) (fun q hq => hsil q (List.mem_of_mem_drop hq))
    rw [hfull]
    refine ⟨by simp [tc], ta, by simpa using tb⟩

theorem vad_C2_witness :
    ∃ j u, 0 < j ∧ j ≤ ([([3], false), ([4], false)] : List (List Nat × Bool)).length ∧
      runFrames ⟨16000, 30, 300, 960, 1, [], true, [[1, 2]]⟩
          (([([3], false), ([4], false)] : List (List Nat × Bool)).take j) =
        ({ (⟨16000, 30, 300, 960, 1, [], true, [[1, 2]]⟩ : VADSegmenter) with
            triggered := false, ring := [], current_utterance := [] }, [u]) ∧
      u.length = (([[1, 2]] : List (List Nat)).map List.length).sum +
        ((([([3], false), ([4], false)] : List (List Nat × Bool)).take j).map
          (fun p => p.1.length)).sum ∧
      (runFrames ⟨16000, 30, 300, 960, 1, [], true, [[1, 2]]⟩
        [([3], false), ([4], false)]).2 = [u] ∧
      (runFrames ⟨16000, 30, 300, 960, 1, [], true, [[1, 2]]⟩
        [([3], false), ([4], false)]).1.triggered = false ∧
      (runFrames ⟨16000, 30, 300, 960, 1, [], true, [[1, 2]]⟩
        [([3], false), ([4], false)]).1.current_utterance = [] :=
  vad_C2 ⟨16000, 30, 300, 960, 1, [], true, [[1, 2]]⟩ (by decide) rfl (by decide)
    [([3], false), ([4], false)] (by decide) (by decide)

/-! ## `TextWakeWord` (wakeword_text.py)

Transcripts are `List Char`.  The compiled patterns are
`\b<escaped phrase>\b` with `re.IGNORECASE`; since the phrase is
`re.escape`d, a pattern matches at index `i` exactly when the transcript
contains the phrase there case-insensitively, with a regex word boundary
(`\b`: word-ness differs across the position, out-of-range counting as
non-word, `\w = [a-zA-Z0-9_]` for the ASCII inputs modelled here) at both
ends.  `search` returns the leftmost match. -/

def lowerStr (l : List Char) : List Char := l.map Char.toLower

def isWordChar (c : Char) : Bool := c.isAlphanum || c = '_'

def wordAt (t : List Char) (j : Nat) : Bool :=
  match t.get? j with
  | some c => isWordChar c
  | none => false

/-- Whether `\b` matches between positions `j - 1` and `j` of `t`. -/
def boundaryAt (t : List Char) (j : Nat) : Bool :=
  (if j = 0 then false else wordAt t (j - 1)) != wordAt t j

/-- The pattern `\b<p>\b` (case-insensitive) matches `t` at index `i`. -/
def matchAt (p t : List Char) (i : Nat) : Bool :=
  decide (i + p.length ≤ t.length) &&
  decide (lowerStr ((t.drop i).take p.length) = lowerStr p) &&
  boundaryAt t i && boundaryAt t (i + p.length)

/-- `pattern.search(t)`: index of the leftmost match, if any. -/
def searchPos (p t : List Char) : Option Nat :=
  (List.range (t.length + 1)).find? (fun i => matchAt p t i)

/-- Python `str.strip()`. -/
def pyStrip (l : List Char) : List Char :=
  ((l.dropWhile Char.isWhitespace).reverse.dropWhile Char.isWhitespace).reverse

structure TextWakeWord where
  bot_name : List Char
deriving DecidableEq, Repr

/-- `TextWakeWord.__init__`: `bot_name.lower().strip()`. -/
def TextWakeWord.init (bot_name : List Char) : TextWakeWord :=
  ⟨pyStrip (lowerStr bot_name)⟩

/-- `TextWakeWord._generate_alternatives`: the fixed alternates table,
non-empty only for the exact name "watson". -/
def TextWakeWord.alt_names (w : TextWakeWord) : List (List Char) :=
  if w.bot_name = "watson".data then
    ["whatson".data, "what\x27s on".data, "watt son".data, "wadson".data]
  else []

/-- `TextWakeWord.is_wake`: empty transcript is never a match; otherwise
the primary pattern is tried, then each alternate. -/
def TextWakeWord.is_wake (w : TextWakeWord) (transcript : List Char) : Bool :=
  if transcript = [] then false
  else if (searchPos w.bot_name transcript).isSome then true
  else w.alt_names.any (fun a => (searchPos a transcript).isSome)

/-- `TextWakeWord.get_wake_position`: start of the primary match, else of
the first matching alternate. -/
def TextWakeWord.get_wake_position (w : TextWakeWord) (transcript : List Char) :
    Option Nat :=
  match searchPos w.bot_name transcript with
  | some i => some i
  | none => w.alt_names.findSome? (fun a => searchPos a transcript)

/-- End position (`match.end()`) of the match `extract_command` uses:
primary first, then the alternates in order. -/
def TextWakeWord.match_end (w : TextWakeWord) (transcript : List Char) :
    Option Nat :=
  match searchPos w.bot_name transcript with
  | some i => some (i + w.bot_name.length)
  | none =>
    w.alt_names.findSome? (fun a => (searchPos a transcript).map (fun i => i + a.length))

/-- The fixed filler table of `extract_command`. -/
def fillers : List (List Char) :=
  ["um".data, "uh".data, "so".data, "please".data, "could you".data, "can you".data]

/-- The filler loop of `extract_command`: each filler in table order is
tested as a case-insensitive prefix of the current command and stripped if
it matches — the loop does **not** stop at the first match. -/
def stripFillers (command : List Char) : List Char :=
  fillers.foldl
    (fun c f => if f.isPrefixOf (lowerStr c) then pyStrip (c.drop f.length) else c)
    command

/-- `TextWakeWord.extract_command`. -/
def TextWakeWord.extract_command (w : TextWakeWord) (transcript : List Char) :
    Option (List Char) :=
  if w.is_wake transcript = false then none
  else
    match w.match_end transcript with
    | none => none
    | some e =>
      let command := stripFillers (pyStrip (transcript.drop e))
      if command = [] then none else some command

/-- Spec-side variant of the filler stripping, following the claim's words
"first match only": only the first filler whose prefix check succeeds is
stripped.  Used to compare against the source behaviour. -/
def extractCommandFirstMatchOnlySpec (w : TextWakeWord) (transcript : List Char) :
    Option (List Char) :=
  if w.is_wake transcript = false then none
  else
    match w.match_end transcript with
    | none => none
    | some e =>
      let command0 := pyStrip (transcript.drop e)
      let command :=
        match fillers.find? (fun f => f.isPrefixOf (lowerStr command0)) with
        | some f => pyStrip (command0.drop f.length)
        | none => command0
      if command = [] then none else some command

/-- The detector the spec's examples use. -/
def watsonDetector : TextWakeWord := TextWakeWord.init ("watson".data)

theorem findSome?_isSome_eq_any (f : α → Option β) :
    ∀ l : List α, (l.findSome? f).isSome = l.any (fun a => (f a).isSome) := by
  intro l
  induction l with
  | nil => rfl
  | cons a l ih =>
    rw [List.findSome?_cons]
    cases hfa : f a
    · simp [hfa, ih]
    · simp [hfa]

theorem searchPos_nil (p : List Char) : searchPos p [] = none := by
  rcases p with _ | ⟨c, cs⟩
  · rfl
  · simp [searchPos, matchAt]

theorem matchEnd_isSome_of_isWake (w : TextWakeWord) (t : List Char)
    (hw : w.is_wake t = true) : (w.match_end t).isSome = true := by
  unfold TextWakeWord.is_wake at hw
  by_cases ht : t = []
  · rw [if_pos ht] at hw
    exact absurd hw (by simp)
  · rw [if_neg ht] at hw
    unfold TextWakeWord.match_end
    cases hsp : searchPos w.bot_name t with
    | some i => simp
    | none =>
      rw [hsp] at hw
      simp only [Option.isSome_none, Bool.false_eq_true, if_false] at hw
      show (w.alt_names.findSome?
        (fun a => (searchPos a t).map (fun i => i + a.length))).isSome = true
      rw [findSome?_isSome_eq_any]
      have hcong : (fun a : List Char => ((searchPos a t).map (fun i => i + a.length)).isSome)
          = (fun a : List Char => (searchPos a t).isSome) := by
        funext a
        cases searchPos a t <;> rfl
      rw [hcong]
      exact hw

/-- Claim C9: for every detector and transcript (the empty one included),
`is_wake` answers true exactly when `get_wake_position` returns an index. -/
theorem wake_C9 (w : TextWakeWord) (t : List Char) :
    w.is_wake t = (w.get_wake_position t).isSome := by
  unfold TextWakeWord.is_wake TextWakeWord.get_wake_position
  by_cases ht : t = []
  · subst ht
    rw [if_pos rfl, searchPos_nil]
    show false = (w.alt_names.findSome? (fun a => searchPos a [])).isSome
    rw [findSome?_isSome_eq_any]
    have hnone : (fun a : List Char => (searchPos a []).isSome) = fun _ => false := by
      funext a
      rw [searchPos_nil]
      rfl
    rw [hnone]
    simp
  · rw [if_neg ht]
    cases hsp : searchPos w.bot_name t with
    | some i => simp
    | none =>
      simp only [Option.isSome_none, Bool.false_eq_true, if_false]
      show w.alt_names.any (fun a => (searchPos a t).isSome) =
        (w.alt_names.findSome? (fun a => searchPos a t)).isSome
      rw [findSome?_isSome_eq_any]

/-- Claim C7: for target "watson", `is_wake` accepts "hey watson, summarize",
rejects "waterston plan" (whole-word matching, no substring hit), accepts
"hey whatson summarize" through the configured alternate even though the
primary phrase finds no match there, and rejects the empty transcript for
every target. -/
theorem wake_C7 :
    watsonDetector.is_wake ("hey watson, summarize".data) = true ∧
    watsonDetector.is_wake ("waterston plan".data) = false ∧
    (watsonDetector.is_wake ("hey whatson summarize".data) = true ∧
      searchPos watsonDetector.bot_name ("hey whatson summarize".data) = none) ∧
    ∀ name : List Char, (TextWakeWord.init name).is_wake [] = false := by
  refine ⟨by decide, by decide, ⟨by decide, by decide⟩, ?_⟩
  intro name
  rfl

/-- Claim C5 counterexample: on "watson um so test" the source strips *two*
fillers ("um", then "so") because the filler loop has no break, returning
"test"; stripping "the first match only", as the claim states, would return
"so test". -/
theorem wake_C5_counterexample :
    watsonDetector.extract_command ("watson um so test".data) = some ("test".data) ∧
    extractCommandFirstMatchOnlySpec watsonDetector ("watson um so test".data) =
      some ("so test".data) ∧
    some ("test".data) ≠ some ("so test".data) := by
  refine ⟨by decide, by decide, by decide⟩

/-- Claim C5 as amended: for every transcript in which the wake phrase
matches, `extract_command` returns the text following the end of the
matched phrase with the fillers of the fixed table tried **in order, each
matching one stripped in turn** (so several fillers may be removed), and
`none` if nothing remains; in particular, for target "watson" and input
"watson please summarize the call" it returns "summarize the call". -/
theorem wake_C5_amended (w : TextWakeWord) (t : List Char)
    (hw : w.is_wake t = true) :
    (∃ e, w.match_end t = some e ∧
      w.extract_command t =
        (if stripFillers (pyStrip (t.drop e)) = [] then none
         else some (stripFillers (pyStrip (t.drop e))))) ∧
    watsonDetector.extract_command ("watson please summarize the call".data) =
      some ("summarize the call".data) := by
  refine ⟨?_, by decide⟩
  obtain ⟨e, he⟩ := Option.isSome_iff_exists.mp (matchEnd_isSome_of_isWake w t hw)
  refine ⟨e, he, ?_⟩
  unfold TextWakeWord.extract_command
  rw [if_neg (by simp [hw]), he]

theorem wake_C5_amended_witness :
    ((∃ e, watsonDetector.match_end ("watson please summarize the call".data) = some e ∧
      watsonDetector.extract_command ("watson please summarize the call".data) =
        (if stripFillers (pyStrip (("watson please summarize the call".data).drop e)) = []
         then none
         else some (stripFillers (pyStrip (("watson please summarize the call".data).drop e))))) ∧
    watsonDetector.extract_command ("watson please summarize the call".data) =
      some ("summarize the call".data)) :=
  wake_C5_amended watsonDetector ("watson please summarize the call".data) (by decide)

/-! ## `MeetingCopilotApp._on_audio_data` (app.py)

Only the state this callback touches is modelled: the mute flag, the ring
buffer, and the bounded ingress queue (`queue.Queue(maxsize=200)`;
`put_nowait` raises `queue.Full` when the queue already holds `maxsize`
items, and the callback swallows that exception, dropping the frame). -/

def audio_queue_maxsize : Nat := 200

structure MeetingCopilotApp where
  is_muted : Bool
  ring_buffer : AudioRingBuffer
  audio_queue : List (List Nat)
deriving DecidableEq, Repr

def MeetingCopilotApp.on_audio_data (app : MeetingCopilotApp) (pcm_bytes : List Nat) :
    MeetingCopilotApp :=
  if app.is_muted then app
  else
    { app with
        ring_buffer := app.ring_buffer.append pcm_bytes
        audio_queue :=
          if app.audio_queue.length < audio_queue_maxsize then
            app.audio_queue ++ [pcm_bytes]
          else
            app.audio_queue }

set_option maxRecDepth 4000 in
/-- Claim C8 counterexample: with the mute flag clear but the ingress queue
already at its 200-item capacity, `_on_audio_data` appends the frame to the
ring buffer yet does **not** enqueue it — the claim's "subsequent frames
are again both appended and enqueued" fails on this state. -/
theorem app_C8_counterexample :
    (MeetingCopilotApp.on_audio_data
        ⟨false, AudioRingBuffer.init 1 8000 1, List.replicate 200 [0]⟩ [5]).audio_queue =
      List.replicate 200 [0] ∧
    (MeetingCopilotApp.on_audio_data
        ⟨false, AudioRingBuffer.init 1 8000 1, List.replicate 200 [0]⟩ [5]).ring_buffer =
      (AudioRingBuffer.init 1 8000 1).append [5] ∧
    List.replicate 200 ([0] : List Nat) ≠ List.replicate 200 ([0] : List Nat) ++ [[5]] := by
  refine ⟨by decide, by decide, by decide⟩

/-- Claim C8 as amended: while muted, `_on_audio_data` changes nothing — no
ring-buffer append and no enqueue; while unmuted, the frame is always
appended to the ring buffer and is enqueued exactly when the ingress queue
currently holds fewer than 200 items (otherwise it is dropped from the
queue), and the mute flag itself is untouched. -/
theorem app_C8_amended (app : MeetingCopilotApp) (pcm_bytes : List Nat) :
    (app.is_muted = true → app.on_audio_data pcm_bytes = app) ∧
    (app.is_muted = false →
      (app.on_audio_data pcm_bytes).ring_buffer = app.ring_buffer.append pcm_bytes ∧
      (app.audio_queue.length < audio_queue_maxsize →
        (app.on_audio_data pcm_bytes).audio_queue = app.audio_queue ++ [pcm_bytes]) ∧
      (audio_queue_maxsize ≤ app.audio_queue.length →
        (app.on_audio_data pcm_bytes).audio_queue = app.audio_queue) ∧
      (app.on_audio_data pcm_bytes).is_muted = false) := by
  constructor
  · intro h
    rw [MeetingCopilotApp.on_audio_data, if_pos h]
  · intro h
    rw [MeetingCopilotApp.on_audio_data, if_neg (by simp [h])]
    refine ⟨rfl, ?_, ?_, by simpa using h⟩
    · intro hlt
      show (if app.audio_queue.length < audio_queue_maxsize then
          app.audio_queue ++ [pcm_bytes] else app.audio_queue) = app.audio_queue ++ [pcm_bytes]
      rw [if_pos hlt]
    · intro hge
      show (if app.audio_queue.length < audio_queue_maxsize then
          app.audio_queue ++ [pcm_bytes] else app.audio_queue) = app.audio_queue
      rw [if_neg (by omega)]

theorem app_C8_amended_witness :
    (MeetingCopilotApp.on_audio_data ⟨true, AudioRingBuffer.init 1 8000 1, []⟩ [7] =
      ⟨true, AudioRingBuffer.init 1 8000 1, []⟩) ∧
    ((MeetingCopilotApp.on_audio_data ⟨false, AudioRingBuffer.init 1 8000 1, []⟩ [7]).ring_buffer =
        (AudioRingBuffer.init 1 8000 1).append [7] ∧
      (MeetingCopilotApp.on_audio_data ⟨false, AudioRingBuffer.init 1 8000 1, []⟩ [7]).audio_queue =
        ([] : List (List Nat)) ++ [[7]] ∧
      (MeetingCopilotApp.on_audio_data ⟨false, AudioRingBuffer.init 1 8000 1, []⟩ [7]).is_muted =
        false) := by
  have hm := (app_C8_amended ⟨true, AudioRingBuffer.init 1 8000 1, []⟩ [7]).1 rfl
  have hu := (app_C8_amended ⟨false, AudioRingBuffer.init 1 8000 1, []⟩ [7]).2 rfl
  exact ⟨hm, hu.1, hu.2.1 (by decide), hu.2.2.2⟩

/-! ## Reachability of `VADInv`

`VADInv` holds for a freshly constructed segmenter and is preserved by
every `_process_frame` step (and trivially by `flush`/`reset`), so the
hypotheses of the hysteresis and termination theorems cover exactly the
reachable states. -/

theorem processFrame_idle (s : VADSegmenter) (f : List Nat) (b : Bool)
    (hidle : s.triggered = false) :
    processFrame s f b =
      (if 5 * numVoiced (dequeAppend s.padding_frames s.ring (f, b)) > 3 * s.padding_frames
       then ({ s with
                triggered := true
                ring := []
                current_utterance :=
                  [((dequeAppend s.padding_frames s.ring (f, b)).map (fun p => p.1)).join] },
         none)
       else ({ s with ring := dequeAppend s.padding_frames s.ring (f, b) }, none)) := by
  rw [processFrame, if_pos hidle]

theorem VADInv_init (sample_rate aggressiveness frame_ms padding_ms : Nat)
    (s0 : VADSegmenter)
    (hmk : VADSegmenter.init sample_rate aggressiveness frame_ms padding_ms = .ok s0) :
    VADInv s0 := by
  rw [VADSegmenter.init] at hmk
  split_ifs at hmk
  injection hmk with hmk
  rw [← hmk]
  refine ⟨by simp, fun _ => ⟨rfl, by simp [numVoiced]⟩, fun ht => absurd ht (by simp)⟩

theorem VADInv_processFrame (s : VADSegmenter) (f : List Nat) (b : Bool)
    (hinv : VADInv s) : VADInv (processFrame s f b).1 := by
  obtain ⟨i1, i2, i3⟩ := hinv
  cases htr : s.triggered
  · rw [processFrame_idle s f b htr]
    by_cases hg : 5 * numVoiced (dequeAppend s.padding_frames s.ring (f, b)) >
        3 * s.padding_frames
    · rw [if_pos hg]
      exact ⟨by simp, fun hF => absurd hF (by simp),
        fun _ => ⟨by simp, by simp [numUnvoiced]⟩⟩
    · rw [if_neg hg]
      refine ⟨?_, ?_, ?_⟩
      · show (dequeAppend s.padding_frames s.ring (f, b)).length ≤ s.padding_frames
        exact dequeAppend_length_le _ _ _
      · intro _
        refine ⟨?_, ?_⟩
        · show s.current_utterance = []
          exact (i2 htr).1
        · show 5 * numVoiced (dequeAppend s.padding_frames s.ring (f, b)) ≤
            3 * s.padding_frames
          omega
      · intro hT
        exact absurd hT (by simp [htr])
  · rw [processFrame_speaking s f b htr]
    by_cases hg : 5 * numUnvoiced (dequeAppend s.padding_frames s.ring (f, b)) >
        4 * s.padding_frames
    · rw [if_pos hg]
      exact ⟨by simp, fun _ => ⟨rfl, by simp [numVoiced]⟩,
        fun hT => absurd hT (by simp)⟩
    · rw [if_neg hg]
      refine ⟨?_, ?_, ?_⟩
      · show (dequeAppend s.padding_frames s.ring (f, b)).length ≤ s.padding_frames
        exact dequeAppend_length_le _ _ _
      · intro hF
        exact absurd hF (by simp [htr])
      · intro _
        refine ⟨?_, ?_⟩
        · show s.current_utterance ++ [f] ≠ []
          simp
        · show 5 * numUnvoiced (dequeAppend s.padding_frames s.ring (f, b)) ≤
            4 * s.padding_frames
          omega

theorem VADInv_flush (s : VADSegmenter) (hinv : VADInv s) : VADInv s.flush.1 := by
  rw [VADSegmenter.flush]
  by_cases h : s.current_utterance ≠ []
  · rw [if_pos h]
    exact ⟨by simp, fun _ => ⟨rfl, by simp [numVoiced]⟩, fun hT => absurd hT (by simp)⟩
  · rw [if_neg h]
    exact hinv
